import Mathlib

/-!
Verification of the AI Saathi agentic workflow orchestrator
(`agentic-workflow.py`) against its natural-language specification.

The Python module is embedded shallowly:

* `WorkflowTask` / `WorkflowResult` mirror the two dataclasses;
* the fixed dispatch table `self.agents` is a parameter `AgentTable`
  (a map from agent name to a fallible capability), since the claims
  quantify over the behaviour of the registered capabilities;
* `_execute_single_task` becomes `execSingleTask` (split into
  `startTask` / `finishTask`, mirroring the `status = "running"`
  assignment followed by the guarded invocation);
* the `while` loop of `_execute_workflow` becomes the fuel-indexed
  `execLoop`; the fuel `tasks.length + 1` dominates the number of
  iterations because every iteration that recurses executes a
  non-empty ready set and therefore strictly decreases the number of
  `pending` tasks.  `execLoop` also records a trace of rounds
  (snapshot before the round, ready set of the round) so that the
  temporal claims can be stated;
* Python dictionaries with string keys become association lists with
  Python's update semantics (`setKey`);
* `datetime.now()` is an abstract clock value `now : Nat`;
  the wall-clock duration written by `create_workflow` is an abstract
  parameter `execTime : Rat`;
* `json.dump`/re-reading is modelled by an explicit `Json` document
  type with an encoder mirroring `save_results` and a decoder for the
  re-read direction.
-/

namespace AiSaathi

/-- Task status strings of the Python module, as an enumeration. -/
inductive Status where
  | pending
  | running
  | completed
  | failed
deriving DecidableEq, Repr

/-- Workflow-level status: `_execute_workflow` only ever returns
`"completed"` or `"failed"`. -/
inductive WStatus where
  | completed
  | failed
deriving DecidableEq, Repr

/-- A Python `dict` with string keys and string-like opaque values, as
an association list (insertion-ordered, like Python dicts). -/
abbrev StrMap := List (String × String)

/-- A capability: the coroutine behind one dispatch-table entry.  It
either returns a result mapping or raises (modelled as `Except`). -/
abbrev Capability := StrMap → Except String StrMap

/-- The dispatch table `self.agents`: agent name to capability, `none`
for names outside the fixed registered set. -/
abbrev AgentTable := String → Option Capability

/-- The `WorkflowTask` dataclass.  `input_data` values and `result`
values are opaque mappings (`StrMap`).  `created_at`/`completed_at`
are abstract clock readings. -/
structure WorkflowTask where
  id : String
  type : String
  agent : String
  inputData : StrMap
  dependencies : List String := []
  status : Status := .pending
  result : Option StrMap := none
  error : Option String := none
  createdAt : Nat := 0
  completedAt : Option Nat := none
deriving DecidableEq, Repr

/-- The `final_output` dictionary built by `_compile_final_output`. -/
structure FinalOutput where
  summary : String
  total_tasks : Nat
  successful_tasks : Nat
  failed_tasks : Nat
  results : List (String × StrMap)
deriving DecidableEq, Repr

/-- The `WorkflowResult` dataclass. -/
structure WorkflowResult where
  workflowId : String
  status : WStatus
  tasks : List WorkflowTask
  finalOutput : Option FinalOutput := none
  executionTime : Option Rat := none
  error : Option String := none
deriving DecidableEq, Repr

/-- `task.status = "running"` — the first assignment of
`_execute_single_task`. -/
def startTask (t : WorkflowTask) : WorkflowTask :=
  { t with status := .running }

/-- The guarded body of `_execute_single_task` after the `running`
assignment: dispatch on the agent name, record `result`/`completed` on
success, record `error`/`failed` when the capability raises or the
agent is unknown (`ValueError(f"Unknown agent: {task.agent}")`). -/
def finishTask (agents : AgentTable) (now : Nat) (t : WorkflowTask) : WorkflowTask :=
  match agents t.agent with
  | some cap =>
    match cap t.inputData with
    | .ok r => { t with status := .completed, result := some r, completedAt := some now }
    | .error e => { t with status := .failed, error := some e, completedAt := some now }
  | none =>
    { t with status := .failed, error := some ("Unknown agent: " ++ t.agent),
             completedAt := some now }

/-- `_execute_single_task`: transition to `running`, then finish. -/
def execSingleTask (agents : AgentTable) (now : Nat) (t : WorkflowTask) : WorkflowTask :=
  finishTask agents now (startTask t)

/-- `all(dep in completed_tasks for dep in task.dependencies)`. -/
def depsSatisfied (completedIds : List String) (t : WorkflowTask) : Bool :=
  t.dependencies.all (fun d => completedIds.contains d)

/-- Membership in the ready set:
`task.status == "pending" and all(dep in completed_tasks ...)`. -/
def isReady (completedIds : List String) (t : WorkflowTask) : Bool :=
  t.status == .pending && depsSatisfied completedIds t

/-- `completed_tasks.add(id)` on the id set (kept duplicate-free, so
its length is the Python set's cardinality). -/
def insertId (ids : List String) (id : String) : List String :=
  if ids.contains id then ids else ids ++ [id]

/-- One `asyncio.gather` round: every ready task is executed (each
task's outcome depends only on that task), the rest are untouched. -/
def runRound (agents : AgentTable) (now : Nat) (completedIds : List String)
    (tasks : List WorkflowTask) : List WorkflowTask :=
  tasks.map (fun t => if isReady completedIds t then execSingleTask agents now t else t)

/-- `for task in ready_tasks: if task.status == "completed":
completed_tasks.add(task.id)`, applied to the post-round states of the
ready tasks. -/
def completedAfterRound (agents : AgentTable) (now : Nat) (completedIds : List String)
    (ready : List WorkflowTask) : List String :=
  (ready.map (execSingleTask agents now)).foldl
    (fun acc t => if t.status == .completed then insertId acc t.id else acc) completedIds

/-- The trace of one `_execute_workflow` run: the executed rounds
(snapshot of the task list before the round, ready set of the round),
the final task list, and `some stalledIds` when the
circular/missing-dependency branch fired. -/
structure RunTrace where
  rounds : List (List WorkflowTask × List WorkflowTask)
  finalTasks : List WorkflowTask
  stalledIds : Option (List String)
deriving DecidableEq, Repr

/-- The `while len(completed_tasks) < len(tasks)` loop of
`_execute_workflow`, indexed by fuel.  The fuel used by
`executeWorkflow` (`tasks.length + 1`) always dominates the number of
iterations, because an iteration only recurses after executing a
non-empty ready set, which strictly decreases the count of `pending`
tasks; the fuel-exhaustion branch is unreachable from `executeWorkflow`.
`consRound` records one executed round on the front of the trace. -/
def consRound (tasks ready : List WorkflowTask) (next : RunTrace) : RunTrace :=
  ⟨(tasks, ready) :: next.rounds, next.finalTasks, next.stalledIds⟩

def execLoop (agents : AgentTable) (now : Nat) :
    Nat → List String → List WorkflowTask → RunTrace
  | 0, _, tasks => ⟨[], tasks, none⟩
  | fuel + 1, completedIds, tasks =>
    if completedIds.length < tasks.length then
      if (tasks.filter (isReady completedIds)).isEmpty then
        if (tasks.filter (fun t => t.status == .pending)).isEmpty then ⟨[], tasks, none⟩
        else ⟨[], tasks,
          some ((tasks.filter (fun t => t.status == .pending)).map (fun t => t.id))⟩
      else
        consRound tasks (tasks.filter (isReady completedIds))
          (execLoop agents now fuel
            (completedAfterRound agents now completedIds
              (tasks.filter (isReady completedIds)))
            (runRound agents now completedIds tasks))
    else ⟨[], tasks, none⟩

/-- The error text of the stall branch,
`f"Circular dependency or missing dependency detected in tasks: {ids}"`;
the formal content is the embedded id list. -/
def stallMsg (ids : List String) : String :=
  "Circular dependency or missing dependency detected in tasks: [" ++
    String.intercalate ", " ids ++ "]"

/-- Python dict update `m[k] = v`: replace in place if the key exists,
else append (insertion order preserved, like a Python dict). -/
def setKey {α : Type} : List (String × α) → String → α → List (String × α)
  | [], k, v => [(k, v)]
  | p :: ps, k, v => if p.1 == k then (k, v) :: ps else p :: setKey ps k v

/-- Python dict lookup `m.get(k)`. -/
def getKey {α : Type} (m : List (String × α)) (k : String) : Option α :=
  (m.find? (fun p => p.1 == k)).map (fun p => p.2)

/-- The per-task update of `_compile_final_output`'s results loop,
`if task.result: output["results"][task.id] = task.result`.  Note the
Python truthiness test: a task contributes only when its `result` is
set and non-empty. -/
def resultsStep (m : List (String × StrMap)) (t : WorkflowTask) : List (String × StrMap) :=
  match t.result with
  | some r => if r.isEmpty then m else setKey m t.id r
  | none => m

/-- `_compile_final_output`. -/
def compileFinalOutput (tasks : List WorkflowTask) : FinalOutput :=
  { summary := "Workflow completed with " ++
      toString (tasks.countP (fun t => t.status == .completed)) ++ " successful tasks"
    total_tasks := tasks.length
    successful_tasks := tasks.countP (fun t => t.status == .completed)
    failed_tasks := tasks.countP (fun t => t.status == .failed)
    results := tasks.foldl resultsStep [] }

/-- `_execute_workflow`: run the loop (the fuel dominates the number
of iterations, see `execLoop`), then either report the stall as a
workflow-level failure or compile the final output.  The surrounding
`except Exception` branch is unreachable: no statement of the body can
raise once per-task errors are caught inside `_execute_single_task`.
Returns the `WorkflowResult` together with the run's trace. -/
def executeWorkflow (agents : AgentTable) (now : Nat) (workflowId : String)
    (tasks : List WorkflowTask) : WorkflowResult × RunTrace :=
  match (execLoop agents now (tasks.length + 1) [] tasks).stalledIds with
  | some ids =>
    ({ workflowId := workflowId, status := .failed,
       tasks := (execLoop agents now (tasks.length + 1) [] tasks).finalTasks,
       error := some (stallMsg ids) },
     execLoop agents now (tasks.length + 1) [] tasks)
  | none =>
    ({ workflowId := workflowId, status := .completed,
       tasks := (execLoop agents now (tasks.length + 1) [] tasks).finalTasks,
       finalOutput := some (compileFinalOutput
         (execLoop agents now (tasks.length + 1) [] tasks).finalTasks) },
     execLoop agents now (tasks.length + 1) [] tasks)

/-- The successive task-list snapshots of a run: the snapshot before
each executed round, then the final task list. -/
def snapshots (tr : RunTrace) : List (List WorkflowTask) :=
  tr.rounds.map (fun pr => pr.1) ++ [tr.finalTasks]

/-- A task specification dictionary as passed to `create_workflow`:
every field optionally present (Python dict keys). -/
structure TaskSpec where
  id : Option String := none
  type : Option String := none
  agent : Option String := none
  input_data : Option StrMap := none
  dependencies : Option (List String) := none
deriving DecidableEq, Repr

/-- The `WorkflowTask(...)` construction of `create_workflow` for the
`i`-th specification: `id` and `dependencies` are read with `.get`
(defaults `task_<i>` and `[]`), while `type`, `agent` and `input_data`
are read with `[...]` and raise `KeyError` when absent (evaluation
order: `type`, then `agent`, then `input_data`). -/
def mkTask (now : Nat) (i : Nat) (d : TaskSpec) : Except String WorkflowTask :=
  match d.type with
  | none => .error "KeyError: type"
  | some ty =>
    match d.agent with
    | none => .error "KeyError: agent"
    | some ag =>
      match d.input_data with
      | none => .error "KeyError: input_data"
      | some inp =>
        .ok { id := d.id.getD ("task_" ++ toString i), type := ty, agent := ag,
              inputData := inp, dependencies := d.dependencies.getD [],
              status := .pending, result := none, error := none,
              createdAt := now, completedAt := none }

/-- The enumerated conversion loop of `create_workflow`: the first
`KeyError` raised aborts the call. -/
def mkTasksFrom (now : Nat) : Nat → List TaskSpec → Except String (List WorkflowTask)
  | _, [] => .ok []
  | i, d :: ds =>
    match mkTask now i d with
    | .error e => .error e
    | .ok t =>
      match mkTasksFrom now (i + 1) ds with
      | .error e => .error e
      | .ok ts => .ok (t :: ts)

/-- Task conversion starting at index 0. -/
def mkTasks (now : Nat) (specs : List TaskSpec) : Except String (List WorkflowTask) :=
  mkTasksFrom now 0 specs

/-- The orchestrator's mutable state: `self.workflows` (dict) and
`self.execution_history` (list). -/
structure Orchestrator where
  workflows : List (String × WorkflowResult) := []
  executionHistory : List WorkflowResult := []
deriving DecidableEq, Repr

/-- `AgenticWorkflowOrchestrator()`. -/
def initOrchestrator : Orchestrator := {}

/-- `create_workflow`: convert the specifications (a `KeyError` here
crosses the interface, modelled as `.error`), execute, stamp the
execution time, append to the history and store in the lookup table. -/
def createWorkflow (agents : AgentTable) (now : Nat) (execTime : Rat)
    (st : Orchestrator) (workflowId : String) (specs : List TaskSpec) :
    Except String (Orchestrator × WorkflowResult) :=
  match mkTasks now specs with
  | .error e => .error e
  | .ok tasks =>
    .ok ({ workflows := setKey st.workflows workflowId
             { (executeWorkflow agents now workflowId tasks).1 with
               executionTime := some execTime },
           executionHistory := st.executionHistory ++
             [{ (executeWorkflow agents now workflowId tasks).1 with
                executionTime := some execTime }] },
         { (executeWorkflow agents now workflowId tasks).1 with
           executionTime := some execTime })

/-- `get_workflow_status`: `self.workflows.get(workflow_id)`. -/
def getWorkflowStatus (st : Orchestrator) (workflowId : String) : Option WorkflowResult :=
  getKey st.workflows workflowId

/-- `list_workflows`. -/
def listWorkflows (st : Orchestrator) : List String :=
  st.workflows.map (fun p => p.1)

/-- `get_execution_history`. -/
def getExecutionHistory (st : Orchestrator) : List WorkflowResult :=
  st.executionHistory

/-! ### Basic facts about single-task execution -/

/-- The fields of a task other than
`status`/`result`/`error`/`completed_at` are never mutated by
`_execute_single_task`. -/
lemma execSingleTask_immutable (a : AgentTable) (n : Nat) (t : WorkflowTask) :
    (execSingleTask a n t).id = t.id ∧ (execSingleTask a n t).type = t.type ∧
    (execSingleTask a n t).agent = t.agent ∧
    (execSingleTask a n t).inputData = t.inputData ∧
    (execSingleTask a n t).dependencies = t.dependencies ∧
    (execSingleTask a n t).createdAt = t.createdAt := by
  cases hA : a t.agent with
  | none => simp [execSingleTask, finishTask, startTask, hA]
  | some cap =>
    cases hr : cap t.inputData with
    | error e => simp [execSingleTask, finishTask, startTask, hA, hr]
    | ok r => simp [execSingleTask, finishTask, startTask, hA, hr]

/-- A task put through `_execute_single_task` ends `completed` or
`failed`. -/
lemma execSingleTask_status (a : AgentTable) (n : Nat) (t : WorkflowTask) :
    (execSingleTask a n t).status = .completed ∨ (execSingleTask a n t).status = .failed := by
  cases hA : a t.agent with
  | none => right; simp [execSingleTask, finishTask, startTask, hA]
  | some cap =>
    cases hr : cap t.inputData with
    | error e => right; simp [execSingleTask, finishTask, startTask, hA, hr]
    | ok r => left; simp [execSingleTask, finishTask, startTask, hA, hr]

/-- A task put through `_execute_single_task` is never `pending`
afterwards. -/
lemma execSingleTask_not_pending (a : AgentTable) (n : Nat) (t : WorkflowTask) :
    (execSingleTask a n t).status ≠ .pending := by
  rcases execSingleTask_status a n t with h | h <;> simp [h]

/-- Successful capability invocation: record `result`, `completed`. -/
lemma execSingleTask_ok (a : AgentTable) (n : Nat) (t : WorkflowTask)
    (cap : Capability) (r : StrMap)
    (hA : a t.agent = some cap) (hr : cap t.inputData = .ok r) :
    execSingleTask a n t =
      { t with status := .completed, result := some r, completedAt := some n } := by
  simp [execSingleTask, finishTask, startTask, hA, hr]

/-- Raised capability error: caught, recorded as `error`, `failed`. -/
lemma execSingleTask_err (a : AgentTable) (n : Nat) (t : WorkflowTask)
    (cap : Capability) (e : String)
    (hA : a t.agent = some cap) (hr : cap t.inputData = .error e) :
    execSingleTask a n t =
      { t with status := .failed, error := some e, completedAt := some n } := by
  simp [execSingleTask, finishTask, startTask, hA, hr]

/-- Unknown agent: the `ValueError` is caught in the same guard and
recorded as the task's `error`. -/
lemma execSingleTask_unknown (a : AgentTable) (n : Nat) (t : WorkflowTask)
    (hA : a t.agent = none) :
    execSingleTask a n t =
      { t with status := .failed, error := some ("Unknown agent: " ++ t.agent),
               completedAt := some n } := by
  simp [execSingleTask, finishTask, startTask, hA]

/-- Ready tasks are pending. -/
lemma isReady_pending {c : List String} {t : WorkflowTask}
    (h : isReady c t = true) : t.status = .pending := by
  simp only [isReady, Bool.and_eq_true, beq_iff_eq] at h
  exact h.1

/-- Ready tasks have all their dependencies in the completed-id set. -/
lemma isReady_deps {c : List String} {t : WorkflowTask}
    (h : isReady c t = true) : ∀ d ∈ t.dependencies, d ∈ c := by
  simp only [isReady, Bool.and_eq_true, depsSatisfied, List.all_eq_true] at h
  intro d hd
  simpa using h.2 d hd

/-! ### The completed-id set invariant -/

/-- Invariant tying `completed_tasks` to the task list: it is a set
(duplicate-free) and every id in it belongs to some `completed` task. -/
def CompletedInv (c : List String) (tasks : List WorkflowTask) : Prop :=
  c.Nodup ∧ ∀ i ∈ c, ∃ t ∈ tasks, t.id = i ∧ t.status = .completed

lemma completedInv_nil (tasks : List WorkflowTask) : CompletedInv [] tasks :=
  ⟨List.nodup_nil, by simp⟩

lemma insertId_nodup {ids : List String} (x : String) (h : ids.Nodup) :
    (insertId ids x).Nodup := by
  unfold insertId
  split
  · exact h
  · next hx =>
    simp only [List.contains_eq_any_beq, List.any_eq_true, beq_iff_eq] at hx
    push_neg at hx
    simpa [List.nodup_append] using ⟨h, fun hmem => hx x hmem rfl⟩

lemma mem_insertId {ids : List String} {x y : String} :
    y ∈ insertId ids x ↔ y ∈ ids ∨ y = x := by
  unfold insertId
  split
  · next hx =>
    simp only [List.contains_eq_any_beq, List.any_eq_true, beq_iff_eq] at hx
    obtain ⟨z, hz, rfl⟩ := hx
    constructor
    · exact .inl
    · rintro (h | rfl) <;> assumption
  · simp

/-- The update step folded by `completedAfterRound`. -/
lemma foldl_insert_nodup (l : List WorkflowTask) (c : List String) (h : c.Nodup) :
    (l.foldl (fun acc t => if t.status == .completed then insertId acc t.id else acc) c).Nodup := by
  induction l generalizing c with
  | nil => exact h
  | cons u l ih =>
    simp only [List.foldl_cons]
    split
    · exact ih _ (insertId_nodup _ h)
    · exact ih _ h

lemma mem_foldl_insert (l : List WorkflowTask) (c : List String) (y : String) :
    y ∈ l.foldl (fun acc t => if t.status == .completed then insertId acc t.id else acc) c ↔
      y ∈ c ∨ ∃ t ∈ l, t.status = .completed ∧ t.id = y := by
  induction l generalizing c with
  | nil => simp
  | cons u l ih =>
    simp only [List.foldl_cons]
    split
    · next hu =>
      rw [ih, mem_insertId]
      simp only [beq_iff_eq] at hu
      constructor
      · rintro ((hc | rfl) | ⟨t, ht, hst, rfl⟩)
        · exact .inl hc
        · exact .inr ⟨u, by simp [hu]⟩
        · exact .inr ⟨t, by simp [ht, hst]⟩
      · rintro (hc | ⟨t, ht, hst, rfl⟩)
        · exact .inl (.inl hc)
        · rcases List.mem_cons.mp ht with rfl | ht
          · exact .inl (.inr rfl)
          · exact .inr ⟨t, ht, hst, rfl⟩
    · next hu =>
      rw [ih]
      simp only [beq_iff_eq] at hu
      constructor
      · rintro (hc | ⟨t, ht, hst, rfl⟩)
        · exact .inl hc
        · exact .inr ⟨t, by simp [ht, hst]⟩
      · rintro (hc | ⟨t, ht, hst, rfl⟩)
        · exact .inl hc
        · rcases List.mem_cons.mp ht with rfl | ht
          · exact absurd hst hu
          · exact .inr ⟨t, ht, hst, rfl⟩

/-- Tasks not ready in a round are untouched by it. -/
lemma mem_runRound_of_not_ready {c : List String} {tasks : List WorkflowTask}
    (a : AgentTable) (n : Nat) {t : WorkflowTask}
    (ht : t ∈ tasks) (hnr : isReady c t = false) :
    t ∈ runRound a n c tasks := by
  have := List.mem_map_of_mem (fun t => if isReady c t then execSingleTask a n t else t) ht
  simpa [runRound, hnr] using this

/-- Ready tasks appear executed in the round's result. -/
lemma mem_runRound_of_ready {c : List String} {tasks : List WorkflowTask}
    (a : AgentTable) (n : Nat) {t : WorkflowTask}
    (ht : t ∈ tasks) (hr : isReady c t = true) :
    execSingleTask a n t ∈ runRound a n c tasks := by
  have := List.mem_map_of_mem (fun t => if isReady c t then execSingleTask a n t else t) ht
  simpa [runRound, hr] using this

/-- One round preserves the completed-id invariant. -/
lemma completedInv_round (a : AgentTable) (n : Nat) {c : List String}
    {tasks : List WorkflowTask} (hinv : CompletedInv c tasks) :
    CompletedInv (completedAfterRound a n c (tasks.filter (isReady c)))
      (runRound a n c tasks) := by
  obtain ⟨hnd, hmem⟩ := hinv
  constructor
  · exact foldl_insert_nodup _ _ hnd
  · intro y hy
    rw [completedAfterRound, mem_foldl_insert] at hy
    rcases hy with hy | ⟨t', ht', hst', rfl⟩
    · obtain ⟨u, hu, hid, hstu⟩ := hmem y hy
      refine ⟨u, ?_, hid, hstu⟩
      exact mem_runRound_of_not_ready a n hu (by simp [isReady, hstu])
    · obtain ⟨t, ⟨htask, hrdy⟩, hready⟩ := by simpa using List.mem_map.mp ht'
      subst hready
      exact ⟨execSingleTask a n t, mem_runRound_of_ready a n htask hrdy, rfl, hst'⟩

/-! ### Progress: every executed round strictly shrinks the pending count -/

lemma countP_pending_runRound_le (a : AgentTable) (n : Nat) (c : List String)
    (tasks : List WorkflowTask) :
    (runRound a n c tasks).countP (fun t => t.status == .pending) ≤
      tasks.countP (fun t => t.status == .pending) := by
  induction tasks with
  | nil => simp [runRound]
  | cons u l ih =>
    simp only [runRound, List.map_cons, List.countP_cons] at ih ⊢
    by_cases hr : isReady c u = true
    · have h1 : ((execSingleTask a n u).status == Status.pending) = false := by
        simp only [beq_eq_false_iff_ne, ne_eq]
        exact execSingleTask_not_pending a n u
      have h2 : (u.status == Status.pending) = true := by
        simp [isReady_pending hr]
      simp only [hr, if_true, h1, h2, Bool.false_eq_true, if_false]
      omega
    · simp only [hr, if_false, Bool.false_eq_true]
      omega

lemma countP_pending_runRound_lt (a : AgentTable) (n : Nat) (c : List String)
    {tasks : List WorkflowTask} (h : ∃ t ∈ tasks, isReady c t = true) :
    (runRound a n c tasks).countP (fun t => t.status == .pending) <
      tasks.countP (fun t => t.status == .pending) := by
  induction tasks with
  | nil => simp at h
  | cons u l ih =>
    simp only [runRound, List.map_cons, List.countP_cons] at ih ⊢
    by_cases hr : isReady c u = true
    · have h1 : ((execSingleTask a n u).status == Status.pending) = false := by
        simp only [beq_eq_false_iff_ne, ne_eq]
        exact execSingleTask_not_pending a n u
      have h2 : (u.status == Status.pending) = true := by
        simp [isReady_pending hr]
      have hle := countP_pending_runRound_le a n c l
      simp only [runRound] at hle
      simp only [hr, if_true, h1, h2, Bool.false_eq_true, if_false]
      omega
    · obtain ⟨t, ht, htr⟩ := h
      rcases List.mem_cons.mp ht with rfl | ht
      · exact absurd htr (by simp [hr])
      · have := ih ⟨t, ht, htr⟩
        simp only [hr, Bool.false_eq_true, if_false] at this ⊢
        omega

/-! ### The loop guard: when `len(completed_tasks) >= len(tasks)`,
no task can still be pending -/

/-- If the duplicate-free completed-id set has grown to the size of
the task list, every task is `completed` (so none is `pending`): the
set injects into the ids of completed tasks, which number at most the
task count. -/
lemma no_pending_of_guard {c : List String} {tasks : List WorkflowTask}
    (hinv : CompletedInv c tasks) (hlen : tasks.length ≤ c.length) :
    ∀ t ∈ tasks, t.status ≠ .pending := by
  obtain ⟨hnd, hmem⟩ := hinv
  have hsub : c.toFinset ⊆
      ((tasks.filter (fun t => t.status == .completed)).map (fun t => t.id)).toFinset := by
    intro x hx
    rw [List.mem_toFinset] at hx ⊢
    obtain ⟨t, ht, hid, hst⟩ := hmem x hx
    exact List.mem_map.mpr ⟨t, List.mem_filter.mpr ⟨ht, by simp [hst]⟩, hid⟩
  have h1 : tasks.length ≤ c.toFinset.card := by
    rw [List.toFinset_card_of_nodup hnd]; exact hlen
  have h2 := Finset.card_le_card hsub
  have h3 := List.toFinset_card_le
    ((tasks.filter (fun t => t.status == .completed)).map (fun t => t.id))
  rw [List.length_map] at h3
  have h5 := tasks.length_filter_le (fun t => t.status == .completed)
  have hall : ∀ t ∈ tasks, (t.status == Status.completed) = true :=
    List.filter_length_eq_length.mp (by omega)
  intro t ht hpending
  have := hall t ht
  rw [hpending] at this
  exact absurd this (by decide)

/-! ### Loop lemmas -/

@[simp] lemma consRound_rounds (tasks ready : List WorkflowTask) (next : RunTrace) :
    (consRound tasks ready next).rounds = (tasks, ready) :: next.rounds := rfl

@[simp] lemma consRound_finalTasks (tasks ready : List WorkflowTask) (next : RunTrace) :
    (consRound tasks ready next).finalTasks = next.finalTasks := rfl

@[simp] lemma consRound_stalledIds (tasks ready : List WorkflowTask) (next : RunTrace) :
    (consRound tasks ready next).stalledIds = next.stalledIds := rfl

/-- The loop never changes the length of the task list. -/
lemma execLoop_finalTasks_length (a : AgentTable) (n : Nat) :
    ∀ fuel c tasks, (execLoop a n fuel c tasks).finalTasks.length = tasks.length := by
  intro fuel
  induction fuel with
  | zero => intro c tasks; simp [execLoop]
  | succ fuel ih =>
    intro c tasks
    rw [execLoop]
    split
    · split
      · split <;> simp
      · simpa [runRound] using ih _ (runRound a n c tasks)
    · simp

/-- Unfolding of `snapshots` over one executed round. -/
lemma snapshots_cons (tasks ready : List WorkflowTask) (next : RunTrace) :
    snapshots (consRound tasks ready next) = tasks :: snapshots next := by
  simp [snapshots]

/-- The first snapshot of a run is the submitted task list. -/
lemma snapshots_head (a : AgentTable) (n : Nat) :
    ∀ fuel c tasks, (snapshots (execLoop a n fuel c tasks)).head? = some tasks := by
  intro fuel
  induction fuel with
  | zero => intro c tasks; simp [execLoop, snapshots]
  | succ fuel ih =>
    intro c tasks
    rw [execLoop]
    split
    · split
      · split <;> simp [snapshots]
      · rw [snapshots_cons]; rfl
    · simp [snapshots]

/-- The last snapshot of a run is the final task list. -/
lemma snapshots_last (tr : RunTrace) : (snapshots tr).getLast? = some tr.finalTasks := by
  simp [snapshots]

/-- If the loop reports a stall, the reported ids are exactly the ids
of the tasks left `pending` in the final task list, and there is at
least one of them. -/
lemma execLoop_stalled_some (a : AgentTable) (n : Nat) :
    ∀ fuel c tasks ids, (execLoop a n fuel c tasks).stalledIds = some ids →
      ids = (((execLoop a n fuel c tasks).finalTasks).filter
          (fun t => t.status == .pending)).map (fun t => t.id) ∧ ids ≠ [] := by
  intro fuel
  induction fuel with
  | zero => intro c tasks ids h; simp [execLoop] at h
  | succ fuel ih =>
    intro c tasks ids h
    rw [execLoop] at h ⊢
    by_cases h1 : c.length < tasks.length
    · rw [if_pos h1] at h ⊢
      by_cases h2 : (tasks.filter (isReady c)).isEmpty = true
      · rw [if_pos h2] at h ⊢
        by_cases h3 : (tasks.filter (fun t => t.status == .pending)).isEmpty = true
        · rw [if_pos h3] at h; simp at h
        · rw [if_neg h3] at h ⊢
          simp only [Option.some.injEq] at h
          subst h
          refine ⟨rfl, ?_⟩
          have h3' : tasks.filter (fun t => t.status == .pending) ≠ [] := by
            intro hnil; exact h3 (by simp [hnil])
          obtain ⟨x, hx⟩ := List.exists_mem_of_ne_nil _ h3'
          exact List.ne_nil_of_mem (List.mem_map_of_mem _ hx)
      · rw [if_neg h2] at h ⊢
        simp only [consRound_stalledIds, consRound_finalTasks] at h ⊢
        exact ih _ _ _ h
    · rw [if_neg h1] at h; simp at h

/-- If the loop does not report a stall then — given the completed-id
invariant and sufficient fuel — no task is left `pending`. -/
lemma execLoop_none_no_pending (a : AgentTable) (n : Nat) :
    ∀ fuel c tasks, CompletedInv c tasks →
      tasks.countP (fun t => t.status == .pending) < fuel →
      (execLoop a n fuel c tasks).stalledIds = none →
      ∀ t ∈ (execLoop a n fuel c tasks).finalTasks, t.status ≠ .pending := by
  intro fuel
  induction fuel with
  | zero => intro c tasks _ hfuel; omega
  | succ fuel ih =>
    intro c tasks hinv hfuel hnone
    rw [execLoop] at hnone ⊢
    by_cases h1 : c.length < tasks.length
    · rw [if_pos h1] at hnone ⊢
      by_cases h2 : (tasks.filter (isReady c)).isEmpty = true
      · rw [if_pos h2] at hnone ⊢
        by_cases h3 : (tasks.filter (fun t => t.status == .pending)).isEmpty = true
        · rw [if_pos h3]
          simp only [List.isEmpty_iff] at h3
          intro t ht hpend
          have hmem : t ∈ tasks.filter (fun t => t.status == .pending) :=
            List.mem_filter.mpr ⟨ht, by simp [hpend]⟩
          simp [h3] at hmem
        · rw [if_neg h3] at hnone; simp at hnone
      · rw [if_neg h2] at hnone ⊢
        simp only [consRound_stalledIds, consRound_finalTasks] at hnone ⊢
        have h2' : tasks.filter (isReady c) ≠ [] := by
          intro hnil; exact h2 (by simp [hnil])
        have hex : ∃ t ∈ tasks, isReady c t = true := by
          obtain ⟨x, hx⟩ := List.exists_mem_of_ne_nil _ h2'
          exact ⟨x, (List.mem_filter.mp hx).1, (List.mem_filter.mp hx).2⟩
        have hlt := countP_pending_runRound_lt a n c hex
        exact ih _ _ (completedInv_round a n hinv) (by omega) hnone
    · rw [if_neg h1]
      intro t ht
      exact no_pending_of_guard hinv (by omega) t ht

/-- A task that is already terminal at some point of the run is never
touched again: it survives unchanged into every later snapshot and
into the final task list. -/
lemma execLoop_stable (a : AgentTable) (n : Nat) :
    ∀ fuel c tasks i t, tasks.get? i = some t → t.status ≠ .pending →
      (execLoop a n fuel c tasks).finalTasks.get? i = some t ∧
      ∀ s ∈ snapshots (execLoop a n fuel c tasks), s.get? i = some t := by
  intro fuel
  induction fuel with
  | zero =>
    intro c tasks i t hget _
    exact ⟨by simpa [execLoop] using hget, by simpa [execLoop, snapshots] using hget⟩
  | succ fuel ih =>
    intro c tasks i t hget hst
    rw [execLoop]
    split
    · split
      · split
        · exact ⟨by simpa using hget, by simpa [snapshots] using hget⟩
        · exact ⟨by simpa using hget, by simpa [snapshots] using hget⟩
      · have hr : isReady c t = false := by
          simp only [isReady, Bool.and_eq_false_iff]
          left
          simpa using hst
        have hget' : (runRound a n c tasks).get? i = some t := by
          rw [runRound, List.get?_map, hget]
          simp [hr]
        obtain ⟨hfin, hsnap⟩ := ih _ (runRound a n c tasks) i t hget' hst
        refine ⟨by simpa using hfin, ?_⟩
        rw [snapshots_cons]
        intro s hs
        rcases List.mem_cons.mp hs with rfl | hs
        · exact hget
        · exact hsnap s hs
    · exact ⟨by simpa using hget, by simpa [snapshots] using hget⟩

/-- A task still `pending` at the end of the run was never executed:
it is the submitted task itself, and it reads the same in every
snapshot of the run. -/
lemma execLoop_pending_unchanged (a : AgentTable) (n : Nat) :
    ∀ fuel c tasks i t u, tasks.get? i = some t →
      (execLoop a n fuel c tasks).finalTasks.get? i = some u → u.status = .pending →
      u = t ∧ ∀ s ∈ snapshots (execLoop a n fuel c tasks), s.get? i = some t := by
  intro fuel
  induction fuel with
  | zero =>
    intro c tasks i t u hget hfin _
    simp only [execLoop] at hfin
    rw [hget] at hfin
    injection hfin with h
    exact ⟨h.symm, by simpa [execLoop, snapshots] using hget⟩
  | succ fuel ih =>
    intro c tasks i t u hget hfin hpend
    rw [execLoop] at hfin ⊢
    by_cases h1 : c.length < tasks.length
    · rw [if_pos h1] at hfin ⊢
      by_cases h2 : (tasks.filter (isReady c)).isEmpty = true
      · rw [if_pos h2] at hfin ⊢
        have heq : u = t := by
          split at hfin <;>
          · simp only at hfin
            rw [hget] at hfin
            injection hfin with h
            exact h.symm
        split <;> exact ⟨heq, by simpa [snapshots] using hget⟩
      · rw [if_neg h2] at hfin ⊢
        simp only [consRound_finalTasks] at hfin
        by_cases hr : isReady c t = true
        · have hget' : (runRound a n c tasks).get? i = some (execSingleTask a n t) := by
            rw [runRound, List.get?_map, hget]
            simp [hr]
          have hstable := (execLoop_stable a n fuel
            (completedAfterRound a n c (tasks.filter (isReady c)))
            (runRound a n c tasks) i
            (execSingleTask a n t) hget' (execSingleTask_not_pending a n t)).1
          rw [hstable] at hfin
          injection hfin with h
          rw [← h] at hpend
          exact absurd hpend (execSingleTask_not_pending a n t)
        · have hget' : (runRound a n c tasks).get? i = some t := by
            simp only [Bool.not_eq_true] at hr
            rw [runRound, List.get?_map, hget]
            simp [hr]
          obtain ⟨heq, hsnap⟩ := ih _ (runRound a n c tasks) i t u hget' hfin hpend
          refine ⟨heq, ?_⟩
          rw [snapshots_cons]
          intro s hs
          rcases List.mem_cons.mp hs with rfl | hs
          · exact hget
          · exact hsnap s hs
    · rw [if_neg h1] at hfin ⊢
      simp only at hfin
      rw [hget] at hfin
      injection hfin with h
      exact ⟨h.symm, by simpa [snapshots] using hget⟩

/-- Every task named in a recorded round's ready set was `pending` at
that round's snapshot, and each of its dependencies is the id of a
task `completed` in that snapshot. -/
lemma execLoop_rounds_sound (a : AgentTable) (n : Nat) :
    ∀ fuel c tasks, CompletedInv c tasks →
      ∀ pr ∈ (execLoop a n fuel c tasks).rounds, ∀ t ∈ pr.2,
        t.status = .pending ∧
        ∀ d ∈ t.dependencies, ∃ u ∈ pr.1, u.id = d ∧ u.status = .completed := by
  intro fuel
  induction fuel with
  | zero => intro c tasks _ pr hpr; simp [execLoop] at hpr
  | succ fuel ih =>
    intro c tasks hinv pr hpr
    rw [execLoop] at hpr
    split at hpr
    · split at hpr
      · split at hpr <;> simp at hpr
      · simp only [consRound_rounds, List.mem_cons] at hpr
        rcases hpr with rfl | hpr
        · intro t ht
          obtain ⟨htask, hrdy⟩ := List.mem_filter.mp ht
          refine ⟨isReady_pending hrdy, fun d hd => ?_⟩
          exact hinv.2 d (isReady_deps hrdy d hd)
        · exact ih _ _ (completedInv_round a n hinv) pr hpr
    · simp at hpr

/-- One admissible snapshot transition: every task is either untouched
or goes from `pending` through `_execute_single_task` (that is,
through `running`) to a terminal state. -/
def StepOk (a : AgentTable) (n : Nat) (s s' : List WorkflowTask) : Prop :=
  s'.length = s.length ∧ ∀ i t, s.get? i = some t →
    s'.get? i = some t ∨
      (t.status = .pending ∧ s'.get? i = some (execSingleTask a n t))

/-- Consecutive snapshots of a run are related by `StepOk`: the
per-task state machine is respected throughout the run. -/
lemma execLoop_chain (a : AgentTable) (n : Nat) :
    ∀ fuel c tasks, List.Chain' (StepOk a n) (snapshots (execLoop a n fuel c tasks)) := by
  intro fuel
  induction fuel with
  | zero => intro c tasks; simp [execLoop, snapshots]
  | succ fuel ih =>
    intro c tasks
    rw [execLoop]
    split
    · split
      · split <;> simp [snapshots]
      · rw [snapshots_cons]
        rw [List.chain'_cons']
        refine ⟨?_, ih _ _⟩
        intro y hy
        rw [snapshots_head a n fuel] at hy
        simp only [Option.mem_def, Option.some.injEq] at hy
        subst hy
        constructor
        · simp [runRound]
        · intro i t hget
          by_cases hr : isReady c t = true
          · right
            refine ⟨isReady_pending hr, ?_⟩
            rw [runRound, List.get?_map, hget]
            simp [hr]
          · left
            simp only [Bool.not_eq_true] at hr
            rw [runRound, List.get?_map, hget]
            simp [hr]
    · simp [snapshots]

/-- Membership preservation through the loop, for any per-task
property preserved by executing a pending task. -/
lemma execLoop_mem_preserve (a : AgentTable) (n : Nat) (P : WorkflowTask → Prop)
    (hP : ∀ t, P t → t.status = .pending → P (execSingleTask a n t)) :
    ∀ fuel c tasks, (∀ t ∈ tasks, P t) →
      ∀ t ∈ (execLoop a n fuel c tasks).finalTasks, P t := by
  intro fuel
  induction fuel with
  | zero => intro c tasks hall; simpa [execLoop] using hall
  | succ fuel ih =>
    intro c tasks hall
    rw [execLoop]
    split
    · split
      · split <;> simpa using hall
      · simp only [consRound_finalTasks]
        refine ih _ (runRound a n c tasks) ?_
        intro t' ht'
        obtain ⟨u, hu, rfl⟩ := List.mem_map.mp ht'
        by_cases hr : isReady c u = true
        · rw [if_pos hr]
          exact hP u (hall u hu) (isReady_pending hr)
        · rw [if_neg hr]
          exact hall u hu
    · simpa using hall

/-- Projection preservation through the loop, for any field fixed by
`_execute_single_task`. -/
lemma execLoop_map_eq {α : Type} (a : AgentTable) (n : Nat) (f : WorkflowTask → α)
    (hf : ∀ t, f (execSingleTask a n t) = f t) :
    ∀ fuel c tasks, (execLoop a n fuel c tasks).finalTasks.map f = tasks.map f := by
  intro fuel
  induction fuel with
  | zero => intro c tasks; simp [execLoop]
  | succ fuel ih =>
    intro c tasks
    rw [execLoop]
    split
    · split
      · split <;> simp
      · simp only [consRound_finalTasks]
        rw [ih]
        simp only [runRound, List.map_map]
        congr 1
        funext t
        by_cases hr : isReady c t = true
        · simp [Function.comp, hr, hf]
        · simp [Function.comp, hr]
    · simp

/-! ### Per-task invariants -/

/-- A task as freshly built by `create_workflow`. -/
def InitialTask (t : WorkflowTask) : Prop :=
  t.status = .pending ∧ t.result = none ∧ t.error = none

/-- Field coherence of a task between rounds: `result` is set exactly
on `completed` tasks, `error` exactly on `failed` ones, and `running`
is only ever observable inside `_execute_single_task`. -/
def TaskInv (t : WorkflowTask) : Prop :=
  (t.status = .pending → t.result = none ∧ t.error = none) ∧
  (t.status = .completed → t.result.isSome ∧ t.error = none) ∧
  (t.status = .failed → t.error.isSome ∧ t.result = none) ∧
  t.status ≠ .running

/-- A recorded `result` always stems from a successful invocation of
the task's own agent capability on the task's own input. -/
def ResultOk (a : AgentTable) (t : WorkflowTask) : Prop :=
  ∀ r, t.result = some r → ∃ cap, a t.agent = some cap ∧ cap t.inputData = .ok r

lemma initialTask_taskInv {t : WorkflowTask} (h : InitialTask t) : TaskInv t := by
  obtain ⟨hs, hr, he⟩ := h
  refine ⟨fun _ => ⟨hr, he⟩, fun hc => ?_, fun hf => ?_, by simp [hs]⟩
  · rw [hs] at hc; cases hc
  · rw [hs] at hf; cases hf

lemma initialTask_resultOk {t : WorkflowTask} (a : AgentTable) (h : InitialTask t) :
    ResultOk a t := by
  intro r hr
  rw [h.2.1] at hr
  cases hr

lemma taskInv_exec (a : AgentTable) (n : Nat) {t : WorkflowTask}
    (h : TaskInv t) (hp : t.status = .pending) : TaskInv (execSingleTask a n t) := by
  obtain ⟨hres, herr⟩ := h.1 hp
  cases hA : a t.agent with
  | none =>
    rw [execSingleTask_unknown a n t hA]
    exact ⟨by simp, by simp, by simp [hres], by simp⟩
  | some cap =>
    cases hc : cap t.inputData with
    | ok r =>
      rw [execSingleTask_ok a n t cap r hA hc]
      exact ⟨by simp, by simp [herr], by simp, by simp⟩
    | error e =>
      rw [execSingleTask_err a n t cap e hA hc]
      exact ⟨by simp, by simp, by simp [hres], by simp⟩

lemma resultOk_exec (a : AgentTable) (n : Nat) {t : WorkflowTask}
    (h : ResultOk a t) (_ : t.status = .pending) : ResultOk a (execSingleTask a n t) := by
  cases hA : a t.agent with
  | none =>
    rw [execSingleTask_unknown a n t hA]
    intro r hr
    exact h r hr
  | some cap =>
    cases hc : cap t.inputData with
    | ok r0 =>
      rw [execSingleTask_ok a n t cap r0 hA hc]
      intro r hr
      simp only [Option.some.injEq] at hr
      exact ⟨cap, hA, hr ▸ hc⟩
    | error e =>
      rw [execSingleTask_err a n t cap e hA hc]
      intro r hr
      exact h r hr

/-! ### Python dict lemmas -/

lemma getKey_setKey_self {α : Type} (m : List (String × α)) (k : String) (v : α) :
    getKey (setKey m k v) k = some v := by
  induction m with
  | nil => simp [setKey, getKey]
  | cons p ps ih =>
    by_cases hp : p.1 = k
    · simp [setKey, getKey, hp]
    · simp only [setKey, getKey] at ih ⊢
      rw [if_neg (by simpa using hp)]
      simpa [List.find?_cons, hp] using ih

lemma getKey_setKey_other {α : Type} (m : List (String × α)) (k k' : String) (v : α)
    (h : k' ≠ k) : getKey (setKey m k v) k' = getKey m k' := by
  have hkk : (k == k') = false := by
    simp only [beq_eq_false_iff_ne, ne_eq]
    exact fun he => h he.symm
  induction m with
  | nil => simp [setKey, getKey, hkk]
  | cons p ps ih =>
    by_cases hp : p.1 = k
    · simp only [setKey]
      rw [if_pos (by simpa using hp)]
      simp [getKey, List.find?_cons, hkk, hp]
    · simp only [setKey]
      rw [if_neg (by simpa using hp)]
      by_cases hp' : p.1 = k'
      · simp [getKey, List.find?_cons, hp']
      · simp only [getKey, List.find?_cons] at ih ⊢
        rw [show (p.1 == k') = false by simpa using hp']
        exact ih

/-! ### Facts about `_compile_final_output`'s results dictionary -/

lemma getKey_foldl_resultsStep_of_ne (l : List WorkflowTask) (m : List (String × StrMap))
    (k : String) (h : ∀ u ∈ l, u.id ≠ k) :
    getKey (l.foldl resultsStep m) k = getKey m k := by
  induction l generalizing m with
  | nil => simp
  | cons u l ih =>
    rw [List.foldl_cons]
    rw [ih _ (fun v hv => h v (List.mem_cons_of_mem u hv))]
    cases hu : u.result with
    | none => simp [resultsStep, hu]
    | some r =>
      by_cases hr : r.isEmpty = true
      · simp [resultsStep, hu, hr]
      · simp only [resultsStep, hu]
        rw [if_neg hr]
        exact getKey_setKey_other m u.id k r (fun he => h u (List.mem_cons_self u l) he.symm)

lemma getKey_foldl_resultsStep_of_mem (l : List WorkflowTask) (m : List (String × StrMap))
    {t : WorkflowTask} {r : StrMap} (ht : t ∈ l) (hres : t.result = some r)
    (hne : r ≠ []) (hnd : (l.map (fun u => u.id)).Nodup) :
    getKey (l.foldl resultsStep m) t.id = some r := by
  induction l generalizing m with
  | nil => cases ht
  | cons u l ih =>
    rw [List.map_cons, List.nodup_cons] at hnd
    rcases List.mem_cons.mp ht with rfl | ht
    · rw [List.foldl_cons]
      have hstep : resultsStep m t = setKey m t.id r := by
        simp only [resultsStep, hres]
        rw [if_neg (by simpa [List.isEmpty_iff] using hne)]
      rw [hstep]
      rw [getKey_foldl_resultsStep_of_ne l _ t.id ?_]
      · exact getKey_setKey_self m t.id r
      · intro v hv he
        exact hnd.1 (he ▸ List.mem_map_of_mem (fun u => u.id) hv)
    · rw [List.foldl_cons]
      exact ih (resultsStep m u) ht hnd.2

lemma getKey_foldl_resultsStep_none (l : List WorkflowTask) (m : List (String × StrMap))
    (k : String) (hacc : getKey m k = none)
    (h : ∀ u ∈ l, u.id = k → u.result = none) :
    getKey (l.foldl resultsStep m) k = none := by
  induction l generalizing m with
  | nil => simpa using hacc
  | cons u l ih =>
    rw [List.foldl_cons]
    refine ih _ ?_ (fun v hv => h v (List.mem_cons_of_mem u hv))
    by_cases hid : u.id = k
    · simp [resultsStep, h u (List.mem_cons_self u l) hid, hacc]
    · cases hu : u.result with
      | none => simpa [resultsStep, hu] using hacc
      | some r =>
        by_cases hr : r.isEmpty = true
        · simpa [resultsStep, hu, hr] using hacc
        · simp only [resultsStep, hu]
          rw [if_neg hr]
          rw [getKey_setKey_other m u.id k r (fun he => hid he.symm)]
          exact hacc

/-- Two disjoint predicates together count at most the length. -/
lemma countP_disjoint_le {α : Type} (l : List α) (p q : α → Bool)
    (h : ∀ x ∈ l, ¬(p x = true ∧ q x = true)) :
    l.countP p + l.countP q ≤ l.length := by
  induction l with
  | nil => simp
  | cons u l ih =>
    simp only [List.countP_cons, List.length_cons]
    have hu := h u (List.mem_cons_self u l)
    have hih := ih (fun x hx => h x (List.mem_cons_of_mem u hx))
    cases hpu : p u with
    | true =>
      cases hqu : q u with
      | true => exact absurd ⟨hpu, hqu⟩ hu
      | false => simp [hpu, hqu] <;> omega
    | false =>
      cases hqu : q u with
      | true => simp [hpu, hqu] <;> omega
      | false => simp [hpu, hqu] <;> omega

/-! ### `_execute_workflow` wrappers -/

/-- The ids of the tasks currently `pending`. -/
def pendingIds (tasks : List WorkflowTask) : List String :=
  (tasks.filter (fun t => t.status == .pending)).map (fun t => t.id)

lemma executeWorkflow_workflowId (a : AgentTable) (n : Nat) (wid : String)
    (tasks : List WorkflowTask) : (executeWorkflow a n wid tasks).1.workflowId = wid := by
  cases hS : (execLoop a n (tasks.length + 1) [] tasks).stalledIds <;>
    simp [executeWorkflow, hS]

lemma executeWorkflow_tasks (a : AgentTable) (n : Nat) (wid : String)
    (tasks : List WorkflowTask) :
    (executeWorkflow a n wid tasks).1.tasks =
      (execLoop a n (tasks.length + 1) [] tasks).finalTasks := by
  cases hS : (execLoop a n (tasks.length + 1) [] tasks).stalledIds <;>
    simp [executeWorkflow, hS]

lemma executeWorkflow_trace (a : AgentTable) (n : Nat) (wid : String)
    (tasks : List WorkflowTask) :
    (executeWorkflow a n wid tasks).2 = execLoop a n (tasks.length + 1) [] tasks := by
  cases hS : (execLoop a n (tasks.length + 1) [] tasks).stalledIds <;>
    simp [executeWorkflow, hS]

/-- The fuel bound of `executeWorkflow` always satisfies the loop's
progress requirement. -/
lemma executeWorkflow_fuel (tasks : List WorkflowTask) :
    tasks.countP (fun t => t.status == .pending) < tasks.length + 1 :=
  Nat.lt_succ_of_le (tasks.countP_le_length _)

/-- The workflow is concluded `failed` exactly when some task is left
`pending` — that is, exactly when a round stalled. -/
lemma executeWorkflow_failed_iff (a : AgentTable) (n : Nat) (wid : String)
    (tasks : List WorkflowTask) :
    (executeWorkflow a n wid tasks).1.status = .failed ↔
      ∃ t ∈ (executeWorkflow a n wid tasks).1.tasks, t.status = .pending := by
  rw [executeWorkflow_tasks]
  unfold executeWorkflow
  cases hS : (execLoop a n (tasks.length + 1) [] tasks).stalledIds with
  | some ids =>
    simp only [hS]
    obtain ⟨hids, hne⟩ := execLoop_stalled_some a n (tasks.length + 1) [] tasks ids hS
    refine ⟨fun _ => ?_, fun _ => by trivial⟩
    have : (((execLoop a n (tasks.length + 1) [] tasks).finalTasks).filter
        (fun t => t.status == .pending)) ≠ [] := by
      intro hnil
      rw [hnil] at hids
      exact hne (by simpa using hids)
    obtain ⟨x, hx⟩ := List.exists_mem_of_ne_nil _ this
    exact ⟨x, (List.mem_filter.mp hx).1, by simpa using (List.mem_filter.mp hx).2⟩
  | none =>
    simp only [hS]
    constructor
    · intro h; simp at h
    · rintro ⟨t, ht, hpend⟩
      exact absurd hpend (execLoop_none_no_pending a n (tasks.length + 1) [] tasks
        (completedInv_nil tasks) (executeWorkflow_fuel tasks) hS t ht)

/-- On stall, the workflow-level error is the stall message built from
exactly the pending ids, and no final output is compiled. -/
lemma executeWorkflow_failed_spec (a : AgentTable) (n : Nat) (wid : String)
    (tasks : List WorkflowTask)
    (h : (executeWorkflow a n wid tasks).1.status = .failed) :
    (executeWorkflow a n wid tasks).1.error =
      some (stallMsg (pendingIds (executeWorkflow a n wid tasks).1.tasks)) ∧
    (executeWorkflow a n wid tasks).1.finalOutput = none := by
  rw [executeWorkflow_tasks]
  unfold executeWorkflow at h ⊢
  cases hS : (execLoop a n (tasks.length + 1) [] tasks).stalledIds with
  | some ids =>
    obtain ⟨hids, _⟩ := execLoop_stalled_some a n (tasks.length + 1) [] tasks ids hS
    simp only [hS]
    rw [pendingIds, ← hids]
    refine ⟨?_, ?_⟩ <;> trivial
  | none => rw [hS] at h; simp at h

/-- On normal conclusion, the final output is compiled from the final
task states and no workflow-level error is recorded. -/
lemma executeWorkflow_completed_spec (a : AgentTable) (n : Nat) (wid : String)
    (tasks : List WorkflowTask)
    (h : (executeWorkflow a n wid tasks).1.status = .completed) :
    (executeWorkflow a n wid tasks).1.finalOutput =
      some (compileFinalOutput (executeWorkflow a n wid tasks).1.tasks) ∧
    (executeWorkflow a n wid tasks).1.error = none := by
  rw [executeWorkflow_tasks]
  unfold executeWorkflow at h ⊢
  cases hS : (execLoop a n (tasks.length + 1) [] tasks).stalledIds with
  | some ids => rw [hS] at h; simp at h
  | none =>
    simp only [hS]
    refine ⟨?_, ?_⟩ <;> trivial

/-! ### `create_workflow` task conversion lemmas -/

lemma mkTask_ok_spec (now i : Nat) (d : TaskSpec) (t : WorkflowTask)
    (h : mkTask now i d = .ok t) :
    InitialTask t ∧ t.id = d.id.getD ("task_" ++ toString i) ∧
      t.dependencies = d.dependencies.getD [] ∧
      d.type = some t.type ∧ d.agent = some t.agent ∧ d.input_data = some t.inputData := by
  unfold mkTask at h
  cases hty : d.type with
  | none => rw [hty] at h; cases h
  | some ty =>
    rw [hty] at h
    cases hag : d.agent with
    | none => rw [hag] at h; cases h
    | some ag =>
      rw [hag] at h
      cases hin : d.input_data with
      | none => rw [hin] at h; cases h
      | some inp =>
        rw [hin] at h
        simp only [Except.ok.injEq] at h
        subst h
        exact ⟨⟨rfl, rfl, rfl⟩, rfl, rfl, rfl, rfl, rfl⟩

lemma mkTask_ok_of_present (now i : Nat) (d : TaskSpec)
    (hty : d.type.isSome) (hag : d.agent.isSome) (hin : d.input_data.isSome) :
    ∃ t, mkTask now i d = .ok t := by
  unfold mkTask
  cases hty' : d.type with
  | none => rw [hty'] at hty; cases hty
  | some ty =>
    cases hag' : d.agent with
    | none => rw [hag'] at hag; cases hag
    | some ag =>
      cases hin' : d.input_data with
      | none => rw [hin'] at hin; cases hin
      | some inp => exact ⟨_, rfl⟩

lemma mkTasksFrom_ok_length (now : Nat) :
    ∀ specs i ts, mkTasksFrom now i specs = .ok ts → ts.length = specs.length := by
  intro specs
  induction specs with
  | nil => intro i ts h; simp only [mkTasksFrom, Except.ok.injEq] at h; simp [← h]
  | cons d ds ih =>
    intro i ts h
    simp only [mkTasksFrom] at h
    cases hd : mkTask now i d with
    | error e => rw [hd] at h; simp at h
    | ok t =>
      rw [hd] at h
      cases hds : mkTasksFrom now (i + 1) ds with
      | error e => rw [hds] at h; simp at h
      | ok ts' =>
        rw [hds] at h
        simp only [Except.ok.injEq] at h
        subst h
        simp [ih (i + 1) ts' hds]

lemma mkTasksFrom_ok_get (now : Nat) :
    ∀ specs i ts, mkTasksFrom now i specs = .ok ts →
      ∀ j t, ts.get? j = some t →
        ∃ d, specs.get? j = some d ∧ mkTask now (i + j) d = .ok t := by
  intro specs
  induction specs with
  | nil =>
    intro i ts h j t hget
    simp only [mkTasksFrom, Except.ok.injEq] at h
    rw [← h] at hget
    cases hget
  | cons d ds ih =>
    intro i ts h j t hget
    simp only [mkTasksFrom] at h
    cases hd : mkTask now i d with
    | error e => rw [hd] at h; simp at h
    | ok t0 =>
      rw [hd] at h
      cases hds : mkTasksFrom now (i + 1) ds with
      | error e => rw [hds] at h; simp at h
      | ok ts' =>
        rw [hds] at h
        simp only [Except.ok.injEq] at h
        subst h
        cases j with
        | zero =>
          simp only [List.get?_cons_zero, Option.some.injEq] at hget
          subst hget
          exact ⟨d, rfl, by simpa using hd⟩
        | succ j =>
          simp only [List.get?_cons_succ] at hget
          obtain ⟨d', hd', hmk⟩ := ih (i + 1) ts' hds j t hget
          refine ⟨d', by simpa using hd', ?_⟩
          have : i + 1 + j = i + (j + 1) := by omega
          rw [← this]
          exact hmk

lemma mkTasksFrom_ok_of_present (now : Nat) :
    ∀ specs i, (∀ d ∈ specs, d.type.isSome ∧ d.agent.isSome ∧ d.input_data.isSome) →
      ∃ ts, mkTasksFrom now i specs = .ok ts := by
  intro specs
  induction specs with
  | nil => intro i _; exact ⟨[], rfl⟩
  | cons d ds ih =>
    intro i hall
    obtain ⟨hty, hag, hin⟩ := hall d (List.mem_cons_self d ds)
    obtain ⟨t, ht⟩ := mkTask_ok_of_present now i d hty hag hin
    obtain ⟨ts, hts⟩ := ih (i + 1) (fun x hx => hall x (List.mem_cons_of_mem d hx))
    refine ⟨t :: ts, ?_⟩
    simp only [mkTasksFrom]
    rw [ht, hts]

lemma mkTasksFrom_initial (now : Nat) :
    ∀ specs i ts, mkTasksFrom now i specs = .ok ts → ∀ t ∈ ts, InitialTask t := by
  intro specs i ts h t ht
  obtain ⟨j, hj⟩ := List.get?_of_mem ht
  obtain ⟨d, _, hmk⟩ := mkTasksFrom_ok_get now specs i ts h j t hj
  exact (mkTask_ok_spec now (i + j) d t hmk).1

/-- Unwinding one successful `create_workflow` call. -/
lemma createWorkflow_ok_spec (a : AgentTable) (now : Nat) (q : Rat)
    (st : Orchestrator) (wid : String) (specs : List TaskSpec)
    (st' : Orchestrator) (r : WorkflowResult)
    (h : createWorkflow a now q st wid specs = .ok (st', r)) :
    ∃ tasks, mkTasks now specs = .ok tasks ∧
      r = { (executeWorkflow a now wid tasks).1 with executionTime := some q } ∧
      st'.workflows = setKey st.workflows wid r ∧
      st'.executionHistory = st.executionHistory ++ [r] := by
  unfold createWorkflow at h
  cases hm : mkTasks now specs with
  | error e => rw [hm] at h; simp at h
  | ok tasks =>
    rw [hm] at h
    simp only [Except.ok.injEq, Prod.mk.injEq] at h
    refine ⟨tasks, rfl, h.2.symm, ?_, ?_⟩
    · rw [← h.1, ← h.2]
    · rw [← h.1, ← h.2]

/-- `create_workflow` raises (the conversion `KeyError` crosses the
interface) exactly when some specification lacks a required key. -/
lemma createWorkflow_ok_of_present (a : AgentTable) (now : Nat) (q : Rat)
    (st : Orchestrator) (wid : String) (specs : List TaskSpec)
    (hall : ∀ d ∈ specs, d.type.isSome ∧ d.agent.isSome ∧ d.input_data.isSome) :
    ∃ st' r, createWorkflow a now q st wid specs = .ok (st', r) := by
  obtain ⟨ts, hts⟩ := mkTasksFrom_ok_of_present now specs 0 hall
  have h : createWorkflow a now q st wid specs =
      .ok ({ workflows := setKey st.workflows wid
               { (executeWorkflow a now wid ts).1 with executionTime := some q },
             executionHistory := st.executionHistory ++
               [{ (executeWorkflow a now wid ts).1 with executionTime := some q }] },
           { (executeWorkflow a now wid ts).1 with executionTime := some q }) := by
    unfold createWorkflow mkTasks
    rw [hts]
  exact ⟨_, _, h⟩

/-! ### The export document (`save_results` / re-reading) -/

/-- A JSON value: the shape of the document `save_results` writes with
`json.dump` and that a re-reader gets back from `json.load`. -/
inductive Json where
  | str : String → Json
  | num : Rat → Json
  | nul : Json
  | arr : List Json → Json
  | obj : List (String × Json) → Json

/-- Task status as serialized. -/
def statusStr : Status → String
  | .pending => "pending"
  | .running => "running"
  | .completed => "completed"
  | .failed => "failed"

def statusOfStr (s : String) : Option Status :=
  if s = "pending" then some .pending
  else if s = "running" then some .running
  else if s = "completed" then some .completed
  else if s = "failed" then some .failed
  else none

def wstatusStr : WStatus → String
  | .completed => "completed"
  | .failed => "failed"

def wstatusOfStr (s : String) : Option WStatus :=
  if s = "completed" then some .completed
  else if s = "failed" then some .failed
  else none

def encodeStrMap (m : StrMap) : Json :=
  .obj (m.map (fun p => (p.1, .str p.2)))

def encodeOptStr : Option String → Json
  | none => .nul
  | some s => .str s

/-- `asdict(task)` as serialized by `json.dump`. -/
def encodeTask (t : WorkflowTask) : Json :=
  .obj [("id", .str t.id), ("type", .str t.type), ("agent", .str t.agent),
        ("input_data", encodeStrMap t.inputData),
        ("dependencies", .arr (t.dependencies.map Json.str)),
        ("status", .str (statusStr t.status)),
        ("result", match t.result with | none => Json.nul | some r => encodeStrMap r),
        ("error", encodeOptStr t.error),
        ("created_at", .num t.createdAt),
        ("completed_at", match t.completedAt with | none => Json.nul | some k => .num k)]

def encodeFinalOutput (fo : FinalOutput) : Json :=
  .obj [("summary", .str fo.summary), ("total_tasks", .num fo.total_tasks),
        ("successful_tasks", .num fo.successful_tasks),
        ("failed_tasks", .num fo.failed_tasks),
        ("results", .obj (fo.results.map (fun p => (p.1, encodeStrMap p.2))))]

/-- One record of the `results_data` list built by `save_results`. -/
def encodeResult (r : WorkflowResult) : Json :=
  .obj [("workflow_id", .str r.workflowId),
        ("status", .str (wstatusStr r.status)),
        ("execution_time", match r.executionTime with | none => Json.nul | some q => .num q),
        ("final_output", match r.finalOutput with | none => Json.nul | some fo => encodeFinalOutput fo),
        ("tasks", .arr (r.tasks.map encodeTask))]

/-- `save_results`: the document serialized from the execution history. -/
def saveResults (history : List WorkflowResult) : Json :=
  .arr (history.map encodeResult)

/-- Field access on a re-read JSON object. -/
def jField (j : Json) (k : String) : Option Json :=
  match j with
  | .obj fs => getKey fs k
  | _ => none

def jStr : Json → Option String
  | .str s => some s
  | _ => none

/-- Re-reading a serialized string-to-string mapping. -/
def decodePairs : List (String × Json) → Option StrMap
  | [] => some []
  | (k, v) :: rest => do
    let s ← jStr v
    let tail ← decodePairs rest
    some ((k, s) :: tail)

def decodeStrs : List Json → Option (List String)
  | [] => some []
  | j :: rest => do
    let s ← jStr j
    let tail ← decodeStrs rest
    some (s :: tail)

def decodeNat (j : Json) : Option Nat :=
  match j with
  | .num q => if q.den = 1 ∧ 0 ≤ q.num then some q.num.toNat else none
  | _ => none

/-- Re-reading one serialized task. -/
def decodeTask (j : Json) : Option WorkflowTask := do
  let i ← jField j "id" >>= jStr
  let ty ← jField j "type" >>= jStr
  let ag ← jField j "agent" >>= jStr
  let inp ← match jField j "input_data" with
    | some (.obj fs) => decodePairs fs
    | _ => none
  let deps ← match jField j "dependencies" with
    | some (.arr xs) => decodeStrs xs
    | _ => none
  let st ← (jField j "status" >>= jStr) >>= statusOfStr
  let res ← match jField j "result" with
    | some .nul => some none
    | some (.obj fs) => (decodePairs fs).map some
    | _ => none
  let err ← match jField j "error" with
    | some .nul => some none
    | some (.str s) => some (some s)
    | _ => none
  let ca ← jField j "created_at" >>= decodeNat
  let co ← match jField j "completed_at" with
    | some .nul => some none
    | some (.num q) => (decodeNat (.num q)).map some
    | _ => none
  some ⟨i, ty, ag, inp, deps, st, res, err, ca, co⟩

/-- What a re-reader recovers of one workflow record: its id, status,
execution time, and the full task states. -/
structure SavedWorkflow where
  workflow_id : String
  status : WStatus
  execution_time : Option Rat
  tasks : List WorkflowTask
deriving DecidableEq, Repr

def decodeTasks : List Json → Option (List WorkflowTask)
  | [] => some []
  | j :: rest => do
    let t ← decodeTask j
    let ts ← decodeTasks rest
    some (t :: ts)

/-- Re-reading one workflow record of the exported document. -/
def decodeRecord (j : Json) : Option SavedWorkflow := do
  let wid ← jField j "workflow_id" >>= jStr
  let st ← (jField j "status" >>= jStr) >>= wstatusOfStr
  let et ← match jField j "execution_time" with
    | some .nul => some none
    | some (.num q) => some (some q)
    | _ => none
  let ts ← match jField j "tasks" with
    | some (.arr xs) => decodeTasks xs
    | _ => none
  some ⟨wid, st, et, ts⟩

def decodeRecords : List Json → Option (List SavedWorkflow)
  | [] => some []
  | j :: rest => do
    let r ← decodeRecord j
    let rs ← decodeRecords rest
    some (r :: rs)

/-- Re-reading the whole exported document. -/
def readResults (j : Json) : Option (List SavedWorkflow) :=
  match j with
  | .arr xs => decodeRecords xs
  | _ => none

/-- The reproducible view of a `WorkflowResult`. -/
def savedView (r : WorkflowResult) : SavedWorkflow :=
  ⟨r.workflowId, r.status, r.executionTime, r.tasks⟩

/-! ### Round-trip of the export document -/

lemma statusOfStr_statusStr (st : Status) : statusOfStr (statusStr st) = some st := by
  cases st <;> rfl

lemma wstatusOfStr_wstatusStr (st : WStatus) : wstatusOfStr (wstatusStr st) = some st := by
  cases st <;> rfl

lemma decodePairs_encode (m : StrMap) :
    decodePairs (m.map (fun p => (p.1, Json.str p.2))) = some m := by
  induction m with
  | nil => rfl
  | cons p ps ih => simp [decodePairs, jStr, ih]

lemma decodeStrs_encode (l : List String) : decodeStrs (l.map Json.str) = some l := by
  induction l with
  | nil => rfl
  | cons s ss ih => simp [decodeStrs, jStr, ih]

lemma decodeNat_encode (n : Nat) : decodeNat (.num n) = some n := by
  simp [decodeNat]

lemma decodeTask_encode (t : WorkflowTask) : decodeTask (encodeTask t) = some t := by
  obtain ⟨i, ty, ag, inp, deps, st, res, err, ca, co⟩ := t
  cases res <;> cases err <;> cases co <;>
    simp [decodeTask, encodeTask, jField, getKey, jStr, encodeStrMap, encodeOptStr,
          decodePairs_encode, decodeStrs_encode, decodeNat_encode, statusOfStr_statusStr]

lemma decodeTasks_encode (l : List WorkflowTask) :
    decodeTasks (l.map encodeTask) = some l := by
  induction l with
  | nil => rfl
  | cons t ts ih => simp [decodeTasks, decodeTask_encode, ih]

lemma decodeRecord_encode (r : WorkflowResult) :
    decodeRecord (encodeResult r) = some (savedView r) := by
  obtain ⟨wid, st, tasks, fo, et, err⟩ := r
  cases et <;> cases fo <;>
    simp [decodeRecord, encodeResult, savedView, jField, getKey, jStr,
          wstatusOfStr_wstatusStr, decodeTasks_encode, encodeFinalOutput]

lemma decodeRecords_encode (h : List WorkflowResult) :
    decodeRecords (h.map encodeResult) = some (h.map savedView) := by
  induction h with
  | nil => rfl
  | cons r rs ih => simp [decodeRecords, decodeRecord_encode, ih]

/-- Round trip: re-reading the exported document recovers every
workflow's id, status, execution time and full task list. -/
lemma readResults_save (h : List WorkflowResult) :
    readResults (saveResults h) = some (h.map savedView) := by
  simp [readResults, saveResults, decodeRecords_encode]

/-! ### Concrete fixtures used to instantiate the theorems -/

/-- A capability that always succeeds with a non-empty mapping. -/
def okCap : Capability := fun _ => .ok [("success", "true")]

/-- A capability that always raises. -/
def failCap : Capability := fun _ => .error "boom"

/-- A two-agent dispatch table. -/
def demoTable : AgentTable := fun name =>
  if name = "good" then some okCap
  else if name = "bad" then some failCap
  else none

/-- A freshly submitted task. -/
def demoTask (i : String) (ag : String) (deps : List String) : WorkflowTask :=
  { id := i, type := "education", agent := ag, inputData := [], dependencies := deps }

instance (t : WorkflowTask) : Decidable (InitialTask t) := by
  unfold InitialTask
  infer_instance

lemma demoTable_nonempty : ∀ name cap inp r,
    demoTable name = some cap → cap inp = .ok r → r ≠ [] := by
  intro name cap inp r hname hcap
  unfold demoTable at hname
  split at hname
  · cases hname
    simp only [okCap, Except.ok.injEq] at hcap
    rw [← hcap]
    simp
  · split at hname
    · cases hname
      simp [failCap] at hcap
    · cases hname

end AiSaathi

namespace AiSaathi

/-- C1: if a scheduling round finds the ready set empty while at least
one task is still `pending` — equivalently, some task is still
`pending` when the run concludes, as with the cycle A ↔ B — then the
workflow concludes `failed`, its error is the stall message built from
exactly the still-pending task ids (each still-pending task's id is in
that list), and every still-pending task is the submitted task itself,
unchanged in every snapshot of the run: it never left `pending`. -/
theorem claim_C1 (a : AgentTable) (n : Nat) (wid : String) (tasks : List WorkflowTask)
    (hstall : ∃ t ∈ (executeWorkflow a n wid tasks).1.tasks, t.status = .pending) :
    (executeWorkflow a n wid tasks).1.status = .failed ∧
    (executeWorkflow a n wid tasks).1.error =
      some (stallMsg (pendingIds (executeWorkflow a n wid tasks).1.tasks)) ∧
    (∀ u ∈ (executeWorkflow a n wid tasks).1.tasks, u.status = .pending →
      u.id ∈ pendingIds (executeWorkflow a n wid tasks).1.tasks) ∧
    (∀ i t u, tasks.get? i = some t →
      (executeWorkflow a n wid tasks).1.tasks.get? i = some u → u.status = .pending →
      u = t ∧ ∀ s ∈ snapshots (executeWorkflow a n wid tasks).2, s.get? i = some t) := by
  have hfail : (executeWorkflow a n wid tasks).1.status = .failed :=
    (executeWorkflow_failed_iff a n wid tasks).mpr hstall
  obtain ⟨herr, _⟩ := executeWorkflow_failed_spec a n wid tasks hfail
  refine ⟨hfail, herr, ?_, ?_⟩
  · intro u hu hp
    unfold pendingIds
    exact List.mem_map_of_mem _ (List.mem_filter.mpr ⟨hu, by simp [hp]⟩)
  · intro i t u hti htu hpu
    rw [executeWorkflow_tasks] at htu
    rw [executeWorkflow_trace]
    exact execLoop_pending_unchanged a n (tasks.length + 1) [] tasks i t u hti htu hpu

/-- Witness for C1: the cycle A depends on B, B depends on A. -/
theorem claim_C1_witness :
    (executeWorkflow demoTable 0 "w1"
      [demoTask "A" "good" ["B"], demoTask "B" "good" ["A"]]).1.status = .failed ∧
    (executeWorkflow demoTable 0 "w1"
      [demoTask "A" "good" ["B"], demoTask "B" "good" ["A"]]).1.error =
      some (stallMsg ["A", "B"]) := by
  have h := claim_C1 demoTable 0 "w1"
    [demoTask "A" "good" ["B"], demoTask "B" "good" ["A"]] (by decide)
  refine ⟨h.1, ?_⟩
  rw [h.2.1]
  rfl

/-- C2: the executor respects the dependency partial order.  A task
only ever transitions to `running` by being a member of some executed
round's ready set (`runRound` applies `execSingleTask`, and with it the
`running` assignment, exactly to those tasks); and every member of a
recorded round's ready set was `pending` at that round's snapshot with
each of its dependency ids belonging to a task already `completed` in
that snapshot.  This holds for every task set, in particular every
cycle-free one. -/
theorem claim_C2 (a : AgentTable) (n : Nat) (wid : String) (tasks : List WorkflowTask) :
    ∀ pr ∈ (executeWorkflow a n wid tasks).2.rounds, ∀ t ∈ pr.2,
      t.status = .pending ∧
      ∀ d ∈ t.dependencies, ∃ u ∈ pr.1, u.id = d ∧ u.status = .completed := by
  rw [executeWorkflow_trace]
  exact execLoop_rounds_sound a n (tasks.length + 1) [] tasks (completedInv_nil tasks)

/-- C9: serializing the execution history through `save_results` and
re-reading the document reproduces, for every workflow, its id, its
status, its execution time, and the full terminal state of every one
of its tasks (each re-read task equals the stored task, all fields
included). -/
theorem claim_C9 (history : List WorkflowResult) :
    readResults (saveResults history) = some (history.map savedView) ∧
    ∀ r ∈ history,
      (savedView r).workflow_id = r.workflowId ∧
      (savedView r).status = r.status ∧
      (savedView r).execution_time = r.executionTime ∧
      (savedView r).tasks = r.tasks := by
  exact ⟨readResults_save history, fun r _ => ⟨rfl, rfl, rfl, rfl⟩⟩

/-- C10: every returning `create_workflow` call — `completed` or
`failed` alike — appends exactly one record to the execution history
and stores that same record in the lookup table under its workflow id,
so it is retrievable through `get_workflow_status`; a second sequential
call reusing the same id overwrites the lookup entry (the getter then
returns the newer record) while the history keeps both records in
submission order. -/
theorem claim_C10 (a : AgentTable) :
    (∀ n q st wid specs st' r, createWorkflow a n q st wid specs = .ok (st', r) →
      st'.executionHistory = st.executionHistory ++ [r] ∧
      getWorkflowStatus st' wid = some r) ∧
    (∀ n₁ n₂ q₁ q₂ st wid specs₁ specs₂ st₁ st₂ r₁ r₂,
      createWorkflow a n₁ q₁ st wid specs₁ = .ok (st₁, r₁) →
      createWorkflow a n₂ q₂ st₁ wid specs₂ = .ok (st₂, r₂) →
      getWorkflowStatus st₂ wid = some r₂ ∧
      st₂.executionHistory = st.executionHistory ++ [r₁, r₂]) := by
  have single : ∀ n q st wid specs st' r,
      createWorkflow a n q st wid specs = .ok (st', r) →
      st'.executionHistory = st.executionHistory ++ [r] ∧
      getWorkflowStatus st' wid = some r := by
    intro n q st wid specs st' r h
    obtain ⟨tasks, _, _, hw, hh⟩ := createWorkflow_ok_spec a n q st wid specs st' r h
    refine ⟨hh, ?_⟩
    unfold getWorkflowStatus
    rw [hw]
    exact getKey_setKey_self st.workflows wid r
  refine ⟨single, ?_⟩
  intro n₁ n₂ q₁ q₂ st wid specs₁ specs₂ st₁ st₂ r₁ r₂ h₁ h₂
  obtain ⟨hh₁, _⟩ := single n₁ q₁ st wid specs₁ st₁ r₁ h₁
  obtain ⟨hh₂, hg₂⟩ := single n₂ q₂ st₁ wid specs₂ st₂ r₂ h₂
  refine ⟨hg₂, ?_⟩
  rw [hh₂, hh₁]
  simp

/-- Witness for C10: two sequential calls reusing the id `dup`. -/
theorem claim_C10_witness :
    ∃ st₁ r₁, createWorkflow demoTable 0 0 initOrchestrator "dup"
        [{ type := some "t", agent := some "good", input_data := some [] }] =
        .ok (st₁, r₁) ∧
      st₁.executionHistory = initOrchestrator.executionHistory ++ [r₁] ∧
      getWorkflowStatus st₁ "dup" = some r₁ := by
  obtain ⟨st₁, r₁, h₁⟩ := createWorkflow_ok_of_present demoTable 0 0 initOrchestrator "dup"
    [{ type := some "t", agent := some "good", input_data := some [] }] (by
      intro d hd
      simp only [List.mem_singleton] at hd
      subst hd
      exact ⟨rfl, rfl, rfl⟩)
  have h := (claim_C10 demoTable).1 0 0 initOrchestrator "dup"
    [{ type := some "t", agent := some "good", input_data := some [] }] st₁ r₁ h₁
  exact ⟨st₁, r₁, h₁, h.1, h.2⟩

/-- C3: a capability failure is caught inside that task's own
execution and recorded as that task's `failed` status and error
message (first conjunct); a round maps every task to a new state
computed from that task alone — `runRound` is literally a pointwise
map, so one task's failure cannot abort a sibling, and a sibling whose
capability succeeds completes with its own result (second and third
conjuncts); and the workflow status is `failed` exactly when a task is
left `pending` (a stall), so a caught task failure never by itself
fails the workflow (fourth conjunct). -/
theorem claim_C3 (a : AgentTable) (n : Nat) :
    (∀ t cap e, a t.agent = some cap → cap t.inputData = .error e →
      execSingleTask a n t =
        { t with status := .failed, error := some e, completedAt := some n }) ∧
    (∀ c tasks, runRound a n c tasks =
      tasks.map (fun t => if isReady c t then execSingleTask a n t else t)) ∧
    (∀ t cap r, a t.agent = some cap → cap t.inputData = .ok r →
      execSingleTask a n t =
        { t with status := .completed, result := some r, completedAt := some n }) ∧
    (∀ wid tasks, (executeWorkflow a n wid tasks).1.status = .failed ↔
      ∃ t ∈ (executeWorkflow a n wid tasks).1.tasks, t.status = .pending) := by
  refine ⟨?_, fun c tasks => rfl, ?_, ?_⟩
  · intro t cap e h1 h2
    exact execSingleTask_err a n t cap e h1 h2
  · intro t cap r h1 h2
    exact execSingleTask_ok a n t cap r h1 h2
  · intro wid tasks
    exact executeWorkflow_failed_iff a n wid tasks

/-- Witness for C3: a raising capability fails only its own task and
the workflow of a failing task plus a succeeding sibling is not
concluded `failed`. -/
theorem claim_C3_witness :
    execSingleTask demoTable 0 (demoTask "x" "bad" []) =
      { (demoTask "x" "bad" []) with
        status := .failed, error := some "boom", completedAt := some 0 } ∧
    (executeWorkflow demoTable 0 "w3"
      [demoTask "x" "bad" [], demoTask "y" "good" []]).1.status ≠ .failed := by
  have h := claim_C3 demoTable 0
  refine ⟨h.1 (demoTask "x" "bad" []) failCap "boom" rfl rfl, ?_⟩
  intro hf
  have hex := (h.2.2.2 "w3" [demoTask "x" "bad" [], demoTask "y" "good" []]).mp hf
  revert hex
  decide

/-- C7: per-task state machine.  `startTask` (the first statement of
`_execute_single_task`) moves a task to `running` and the rest of
execution continues from there; execution always ends `completed` or
`failed`; across the snapshots of a run every change is a `pending`
task going through `_execute_single_task` (so `pending → running →
terminal`, no task re-enters `pending`, terminal tasks are never
re-executed); and at the end of the run `result` is present iff the
task is `completed` and `error` is present iff it is `failed`. -/
theorem claim_C7 (a : AgentTable) (n : Nat) (wid : String) (tasks : List WorkflowTask)
    (hinit : ∀ t ∈ tasks, InitialTask t) :
    (∀ t, (startTask t).status = .running ∧
      execSingleTask a n t = finishTask a n (startTask t)) ∧
    (∀ t, (execSingleTask a n t).status = .completed ∨
      (execSingleTask a n t).status = .failed) ∧
    List.Chain' (StepOk a n) (snapshots (executeWorkflow a n wid tasks).2) ∧
    (∀ t ∈ (executeWorkflow a n wid tasks).1.tasks,
      (t.result.isSome ↔ t.status = .completed) ∧
      (t.error.isSome ↔ t.status = .failed)) := by
  refine ⟨fun t => ⟨rfl, rfl⟩, fun t => execSingleTask_status a n t, ?_, ?_⟩
  · rw [executeWorkflow_trace]
    exact execLoop_chain a n (tasks.length + 1) [] tasks
  · rw [executeWorkflow_tasks]
    have hall := execLoop_mem_preserve a n TaskInv (fun t ht hp => taskInv_exec a n ht hp)
      (tasks.length + 1) [] tasks (fun t ht => initialTask_taskInv (hinit t ht))
    intro t ht
    obtain ⟨h1, h2, h3, h4⟩ := hall t ht
    cases hst : t.status with
    | pending =>
      obtain ⟨hr, he⟩ := h1 hst
      simp [hst, hr, he]
    | running => exact absurd hst h4
    | completed =>
      obtain ⟨hrs, he⟩ := h2 hst
      simp [hst, hrs, he]
    | failed =>
      obtain ⟨hes, hr⟩ := h3 hst
      simp [hst, hes, hr]

/-- Witness for C7 at a concrete task and workflow. -/
theorem claim_C7_witness :
    (startTask (demoTask "s" "good" [])).status = .running ∧
    ((execSingleTask demoTable 0 (demoTask "s" "good" [])).status = .completed ∨
      (execSingleTask demoTable 0 (demoTask "s" "good" [])).status = .failed) := by
  have h := claim_C7 demoTable 0 "w7" [demoTask "s" "good" []] (by decide)
  exact ⟨(h.1 (demoTask "s" "good" [])).1, h.2.1 (demoTask "s" "good" [])⟩

/-- Witness for C2: in the three-task run, the second recorded round's
ready set contains `materials`, whose dependency `plan` is the id of a
task already `completed` in that round's snapshot. -/
theorem claim_C2_witness :
    ∃ u ∈ ((executeWorkflow demoTable 0 "w2"
        [demoTask "plan" "good" [], demoTask "materials" "good" ["plan"],
         demoTask "quiz" "good" ["plan"]]).2.rounds.getD 1 ([], [])).1,
      u.id = "plan" ∧ u.status = Status.completed := by
  exact (claim_C2 demoTable 0 "w2"
    [demoTask "plan" "good" [], demoTask "materials" "good" ["plan"],
     demoTask "quiz" "good" ["plan"]]
    ((executeWorkflow demoTable 0 "w2"
        [demoTask "plan" "good" [], demoTask "materials" "good" ["plan"],
         demoTask "quiz" "good" ["plan"]]).2.rounds.getD 1 ([], []))
    (by decide)
    (((executeWorkflow demoTable 0 "w2"
        [demoTask "plan" "good" [], demoTask "materials" "good" ["plan"],
         demoTask "quiz" "good" ["plan"]]).2.rounds.getD 1 ([], [])).2.getD 0
      (demoTask "plan" "good" []))
    (by decide)).2 "plan" (by decide)

/-- C5: for every workflow that concludes `completed`, the final
output counts the submitted tasks, counts the `completed` and `failed`
tasks, their sum is at most the total, and the results dictionary maps
the id of every task that produced a result to exactly that result,
with failed tasks contributing nothing.  The hypotheses record the
data model (task ids are unique within a workflow, tasks are submitted
fresh) and the property — shared by every capability registered in
this repository's dispatch table, all of which return dictionaries
with at least their metadata keys — that a successful capability's
result mapping is non-empty (otherwise Python's `if task.result:`
truthiness test would drop it). -/
theorem claim_C5 (a : AgentTable) (n : Nat) (wid : String) (tasks : List WorkflowTask)
    (hinit : ∀ t ∈ tasks, InitialTask t)
    (hids : (tasks.map (fun t => t.id)).Nodup)
    (hne : ∀ name cap inp r, a name = some cap → cap inp = .ok r → r ≠ [])
    (hstatus : (executeWorkflow a n wid tasks).1.status = .completed) :
    ∃ fo, (executeWorkflow a n wid tasks).1.finalOutput = some fo ∧
      fo.total_tasks = tasks.length ∧
      fo.successful_tasks =
        ((executeWorkflow a n wid tasks).1.tasks).countP (fun t => t.status == .completed) ∧
      fo.failed_tasks =
        ((executeWorkflow a n wid tasks).1.tasks).countP (fun t => t.status == .failed) ∧
      fo.successful_tasks + fo.failed_tasks ≤ fo.total_tasks ∧
      (∀ t ∈ (executeWorkflow a n wid tasks).1.tasks, ∀ r, t.result = some r →
        getKey fo.results t.id = some r) ∧
      (∀ t ∈ (executeWorkflow a n wid tasks).1.tasks, t.status = .failed →
        getKey fo.results t.id = none) := by
  obtain ⟨hfo, _⟩ := executeWorkflow_completed_spec a n wid tasks hstatus
  have htasks : (executeWorkflow a n wid tasks).1.tasks =
      (execLoop a n (tasks.length + 1) [] tasks).finalTasks :=
    executeWorkflow_tasks a n wid tasks
  have hres := execLoop_mem_preserve a n (ResultOk a)
    (fun t ht hp => resultOk_exec a n ht hp)
    (tasks.length + 1) [] tasks (fun t ht => initialTask_resultOk a (hinit t ht))
  have hinv := execLoop_mem_preserve a n TaskInv
    (fun t ht hp => taskInv_exec a n ht hp)
    (tasks.length + 1) [] tasks (fun t ht => initialTask_taskInv (hinit t ht))
  have hfin_ids : (((execLoop a n (tasks.length + 1) [] tasks).finalTasks).map
      (fun t => t.id)).Nodup := by
    rw [execLoop_map_eq a n (fun t => t.id)
      (fun t => (execSingleTask_immutable a n t).1) (tasks.length + 1) [] tasks]
    exact hids
  refine ⟨compileFinalOutput ((executeWorkflow a n wid tasks).1.tasks), hfo,
    ?_, rfl, rfl, ?_, ?_, ?_⟩
  · show ((executeWorkflow a n wid tasks).1.tasks).length = tasks.length
    rw [htasks]
    exact execLoop_finalTasks_length a n (tasks.length + 1) [] tasks
  · refine countP_disjoint_le ((executeWorkflow a n wid tasks).1.tasks) _ _ ?_
    rintro x - ⟨hc, hf⟩
    simp only [beq_iff_eq] at hc hf
    rw [hc] at hf
    cases hf
  · intro t ht r hr
    rw [htasks] at ht ⊢
    obtain ⟨cap, hcap, hok⟩ := hres t ht r hr
    have hrne : r ≠ [] := hne t.agent cap t.inputData r hcap hok
    show getKey (((execLoop a n (tasks.length + 1) [] tasks).finalTasks).foldl
      resultsStep []) t.id = some r
    exact getKey_foldl_resultsStep_of_mem _ [] ht hr hrne hfin_ids
  · intro t ht hf
    rw [htasks] at ht ⊢
    have hnores : t.result = none := ((hinv t ht).2.2.1 hf).2
    show getKey (((execLoop a n (tasks.length + 1) [] tasks).finalTasks).foldl
      resultsStep []) t.id = none
    refine getKey_foldl_resultsStep_none _ [] t.id rfl ?_
    intro u hu hid
    have hut : u = t := List.inj_on_of_nodup_map hfin_ids hu ht hid
    rw [hut]
    exact hnores

/-- Witness for C5: one succeeding and one failing task. -/
theorem claim_C5_witness :
    ∃ fo, (executeWorkflow demoTable 0 "w5"
        [demoTask "p" "good" [], demoTask "q" "bad" []]).1.finalOutput = some fo ∧
      fo.total_tasks = 2 ∧ fo.successful_tasks + fo.failed_tasks ≤ fo.total_tasks := by
  obtain ⟨fo, h1, h2, _, _, h5, _, _⟩ := claim_C5 demoTable 0 "w5"
    [demoTask "p" "good" [], demoTask "q" "bad" []]
    (by decide) (by decide) demoTable_nonempty (by decide)
  exact ⟨fo, h1, by simpa using h2, h5⟩

/-- C6 counterexample: a task specification carrying only `agent` and
`input_data` — exactly what the claim says suffices — makes
`create_workflow` raise `KeyError` (the code reads
`task_data['type']` with no default), so the exception crosses the
submission interface instead of a `WorkflowResult` being returned:
`type` is not optional. -/
theorem claim_C6_counterexample :
    createWorkflow demoTable 0 0 initOrchestrator "w6"
      [{ agent := some "good", input_data := some [] }] = .error "KeyError: type" := by
  rfl

/-- C6 (amended): a task specification needs the fields `agent`,
`inputData` and also `type`; `id` still defaults to `task_<index>` and
`dependencies` still defaults to empty.  When every specification
carries those three required fields, the call always returns a
`WorkflowResult` and no exception crosses the submission interface —
capability failures and unknown agents are observed only through the
per-task and workflow `status`/`errorMessage` fields, since the result
is `.ok` for every agent table. -/
theorem claim_C6 (a : AgentTable) (n : Nat) (q : Rat) (st : Orchestrator)
    (wid : String) (specs : List TaskSpec)
    (hall : ∀ d ∈ specs, d.type.isSome ∧ d.agent.isSome ∧ d.input_data.isSome) :
    ∃ st' r, createWorkflow a n q st wid specs = .ok (st', r) ∧
      r.tasks.length = specs.length ∧
      (∀ j t, r.tasks.get? j = some t →
        ∃ d, specs.get? j = some d ∧
          t.id = d.id.getD ("task_" ++ toString j) ∧
          t.dependencies = d.dependencies.getD []) := by
  obtain ⟨st', r, h⟩ := createWorkflow_ok_of_present a n q st wid specs hall
  obtain ⟨tasks, hmk, hr, _, _⟩ := createWorkflow_ok_spec a n q st wid specs st' r h
  have hrt : r.tasks = (executeWorkflow a n wid tasks).1.tasks := by rw [hr]
  have hlen : tasks.length = specs.length := mkTasksFrom_ok_length n specs 0 tasks hmk
  refine ⟨st', r, h, ?_, ?_⟩
  · rw [hrt, executeWorkflow_tasks, execLoop_finalTasks_length]
    exact hlen
  · intro j t ht
    rw [hrt, executeWorkflow_tasks] at ht
    have hmap := execLoop_map_eq a n (fun u => (u.id, u.dependencies))
      (fun u => by
        obtain ⟨h1, _, _, _, h5, _⟩ := execSingleTask_immutable a n u
        simp [h1, h5]) (tasks.length + 1) [] tasks
    have hj := congrArg (fun l => l.get? j) hmap
    simp only [List.get?_map] at hj
    rw [ht] at hj
    cases hg : tasks.get? j with
    | none => rw [hg] at hj; simp at hj
    | some t0 =>
      rw [hg] at hj
      simp only [Option.map_some', Option.some.injEq, Prod.mk.injEq] at hj
      obtain ⟨d, hd, hmkt⟩ := mkTasksFrom_ok_get n specs 0 tasks hmk j t0 hg
      obtain ⟨_, hid, hdeps, _, _, _⟩ := mkTask_ok_spec n (0 + j) d t0 hmkt
      rw [Nat.zero_add] at hid
      exact ⟨d, hd, by rw [hj.1, hid], by rw [hj.2, hdeps]⟩

/-- Witness for C6 (amended): one fully specified task. -/
theorem claim_C6_witness :
    ∃ st' r, createWorkflow demoTable 0 0 initOrchestrator "w6b"
        [{ type := some "t", agent := some "good", input_data := some [] }] =
        .ok (st', r) ∧
      r.tasks.length = 1 := by
  obtain ⟨st', r, h1, h2, _⟩ := claim_C6 demoTable 0 0 initOrchestrator "w6b"
    [{ type := some "t", agent := some "good", input_data := some [] }] (by decide)
  exact ⟨st', r, h1, by simpa using h2⟩

/-- C4: a workflow consisting of one freshly submitted task (no
dependencies, per the spec's scenario) whose agent name is not in the
dispatch table concludes `completed` — no stall, since the lone task
reaches a terminal state — with the task `failed` carrying the unknown
agent name in its error message, and the final output counting one
failed and zero successful tasks. -/
theorem claim_C4 (a : AgentTable) (n : Nat) (wid : String) (t : WorkflowTask)
    (hinit : InitialTask t) (hdeps : t.dependencies = [])
    (hA : a t.agent = none) :
    (executeWorkflow a n wid [t]).1.status = .completed ∧
    (executeWorkflow a n wid [t]).1.tasks =
      [{ t with status := .failed, error := some ("Unknown agent: " ++ t.agent),
                completedAt := some n }] ∧
    (executeWorkflow a n wid [t]).1.finalOutput =
      some (compileFinalOutput
        [{ t with status := .failed, error := some ("Unknown agent: " ++ t.agent),
                  completedAt := some n }]) ∧
    (compileFinalOutput
      [{ t with status := .failed, error := some ("Unknown agent: " ++ t.agent),
                completedAt := some n }]).failed_tasks = 1 ∧
    (compileFinalOutput
      [{ t with status := .failed, error := some ("Unknown agent: " ++ t.agent),
                completedAt := some n }]).successful_tasks = 0 := by
  obtain ⟨hst, hres, herr⟩ := hinit
  obtain ⟨i, ty, ag, inp, deps, st', res', err', ca, co⟩ := t
  simp only at hst hres herr hdeps hA
  subst hst hres herr hdeps
  refine ⟨?_, ?_, ?_, ?_, ?_⟩ <;>
  simp [executeWorkflow, execLoop, consRound, runRound, completedAfterRound,
        insertId, isReady, depsSatisfied, execSingleTask, finishTask, startTask,
        hA, compileFinalOutput]

/-- Witness for C4: the unregistered agent name `nope`. -/
theorem claim_C4_witness :
    (executeWorkflow demoTable 7 "w4" [demoTask "solo" "nope" []]).1.status = .completed ∧
    (executeWorkflow demoTable 7 "w4" [demoTask "solo" "nope" []]).1.tasks =
      [{ (demoTask "solo" "nope" []) with
         status := .failed, error := some "Unknown agent: nope", completedAt := some 7 }] ∧
    ∃ fo, (executeWorkflow demoTable 7 "w4" [demoTask "solo" "nope" []]).1.finalOutput =
        some fo ∧
      fo.failed_tasks = 1 ∧ fo.successful_tasks = 0 := by
  have h := claim_C4 demoTable 7 "w4" (demoTask "solo" "nope" [])
    (by decide) rfl rfl
  exact ⟨h.1, h.2.1, ⟨_, h.2.2.1, h.2.2.2.1, h.2.2.2.2⟩⟩

/-- The `plan` task of the spec's three-task scenario. -/
def planTask : WorkflowTask :=
  { id := "plan", type := "education", agent := "lesson_plan", inputData := [] }

/-- The `materials` task, depending on `plan`. -/
def materialsTask : WorkflowTask :=
  { id := "materials", type := "education", agent := "teaching_aids", inputData := [],
    dependencies := ["plan"] }

/-- The `quiz` task, depending on `plan`. -/
def quizTask : WorkflowTask :=
  { id := "quiz", type := "education", agent := "assessment", inputData := [],
    dependencies := ["plan"] }

/-- C8: the three-task scenario `plan` (no dependencies), `materials`
and `quiz` (each depending on `plan`), executed with a capability that
always succeeds (any `fun inp => .ok (g inp)`), runs `plan` alone in
round 1, `materials` and `quiz` together in round 2 (the recorded
ready sets are exactly `[plan]` then `[materials, quiz]`), and
concludes `completed` with three successful and zero failed tasks. -/
theorem claim_C8 (g : StrMap → StrMap) (n : Nat) (wid : String) :
    ((executeWorkflow (fun _ => some (fun inp => Except.ok (g inp))) n wid
        [planTask, materialsTask, quizTask]).2.rounds.map
      (fun pr => pr.2.map (fun t => t.id))) = [["plan"], ["materials", "quiz"]] ∧
    (executeWorkflow (fun _ => some (fun inp => Except.ok (g inp))) n wid
      [planTask, materialsTask, quizTask]).1.status = .completed ∧
    ∃ fo, (executeWorkflow (fun _ => some (fun inp => Except.ok (g inp))) n wid
        [planTask, materialsTask, quizTask]).1.finalOutput = some fo ∧
      fo.successful_tasks = 3 ∧ fo.failed_tasks = 0 := by
  exact ⟨rfl, rfl, ⟨_, rfl, rfl, rfl⟩⟩

end AiSaathi
